import Mathlib

set_option maxHeartbeats 1000000

set_option maxRecDepth 100000

attribute [local semireducible] Rat.mul Rat.add Rat.sub Rat.inv

deriving instance DecidableEq for Except

/- Verification development for the pysobus J1939/ISOBUS frame decoder
   (pysobus/parser.py), as a shallow embedding in Lean.

   Python arbitrary-precision integers are modelled as Nat, raised
   exceptions as Except String (or as Option where the source catches
   them), Python floats used for timestamps, scales, offsets and decimal
   byte.bit positions as exact rationals, and the mutable per-decoder
   reassembly dictionaries as explicit state records threaded through a
   step function. Names follow the source; the source attribute
   opcode_parser is rendered opcode_spn and the registry attribute
   pgn_src_to_parser is rendered as the table field of ParserModel. -/

/-- Value of one hex digit, as accepted by int(s, 16) on plain hex input and
by the payload regex character class 0-9a-fA-F. Returns none on a non-hex
character. -/
def hexDigitVal? (c : Char) : Option ℕ :=
  if ('0' ≤ c ∧ c ≤ '9') then some (c.toNat - '0'.toNat)
  else if ('a' ≤ c ∧ c ≤ 'f') then some (c.toNat - 'a'.toNat + 10)
  else if ('A' ≤ c ∧ c ≤ 'F') then some (c.toNat - 'A'.toNat + 10)
  else none

/-- Characters the Python int constructor strips around a numeric literal,
restricted to ASCII whitespace; the frame interface carries ASCII hex
text. -/
def isPyWhitespace (c : Char) : Bool :=
  c == ' ' || c == '\t' || c == '\n' || c == '\r' || c == '\x0B' || c == '\x0C'

/-- Strip leading and trailing whitespace, as int(s, 16) does before
reading the literal. -/
def stripPy (l : List Char) : List Char :=
  ((l.dropWhile isPyWhitespace).reverse.dropWhile isPyWhitespace).reverse

/-- Hex digits after the first one, allowing a single underscore between
two digits, as the Python numeric literal grammar does; a doubled,
trailing or otherwise misplaced underscore fails. -/
def hexDigitsRest? : List Char → ℕ → Option ℕ
  | [], acc => some acc
  | a :: cs, acc =>
    if a = '_' then
      match cs with
      | [] => none
      | c :: cs2 =>
        match hexDigitVal? c with
        | some d => hexDigitsRest? cs2 (acc * 16 + d)
        | none => none
    else
      match hexDigitVal? a with
      | some d => hexDigitsRest? cs (acc * 16 + d)
      | none => none

/-- Digit run of the literal: it must start with a hex digit, except that
one underscore may directly follow the base prefix. -/
def parseDigitsPy? : Bool → List Char → Option ℕ
  | _, [] => none
  | allowLead, a :: cs =>
    if a = '_' then
      if allowLead then parseDigitsPy? false cs else none
    else
      match hexDigitVal? a with
      | some d => hexDigitsRest? cs d
      | none => none

/-- Unsigned part of the literal: an optional 0x or 0X base prefix, then
the digit run. -/
def parseIntPyCore? (l : List Char) : Option ℕ :=
  match l with
  | '0' :: c :: rest =>
    if c = 'x' ∨ c = 'X' then parseDigitsPy? true rest
    else parseDigitsPy? false ('0' :: c :: rest)
  | _ => parseDigitsPy? false l

/-- Embedding of int(s, 16): strip surrounding whitespace, read an
optional sign, an optional hexadecimal base prefix and a digit run with
single underscores between digits, yielding a possibly negative integer;
none models ValueError. Decorations outside ASCII are not modelled, the
frame interface being ASCII hex text. -/
def parseIntPy? (s : String) : Option ℤ :=
  match stripPy s.data with
  | '+' :: rest => (parseIntPyCore? rest).map (fun n => (n : ℤ))
  | '-' :: rest => (parseIntPyCore? rest).map (fun n => -(n : ℤ))
  | rest => (parseIntPyCore? rest).map (fun n => (n : ℤ))

/-- Embedding of re.findall applied with the two-hex-character pattern: scan
left to right, take a pair whenever two consecutive characters are both hex
digits, otherwise advance by one character. -/
def hexPairsAux : List Char → List String
  | a :: b :: rest =>
    if (hexDigitVal? a).isSome && (hexDigitVal? b).isSome then
      String.mk [a, b] :: hexPairsAux rest
    else
      hexPairsAux (b :: rest)
  | _ => []

/-- Payload byte strings of a message body, via the regex scan. -/
def hexPairs (s : String) : List String := hexPairsAux s.data

def MASK_2_BIT : ℕ := (1 <<< 2) - 1

def MASK_3_BIT : ℕ := (1 <<< 3) - 1

def MASK_8_BIT : ℕ := (1 <<< 8) - 1

/-- Subfields extracted from the numeric value of the 8-hex-character
header. -/
structure HeaderFields where
  src : ℕ
  pdu_ps : ℕ
  pdu_pf : ℕ
  res_dp : ℕ
  priority : ℕ
  pgn : ℕ
deriving DecidableEq, Repr

/-- Embedding of the header decomposition of msg_to_header_info_and_payload,
lines 33 to 52 of parser.py: shift out source address, PDU specific, PDU
format, reserved and data page bits and priority, then assemble the PGN,
folding the PDU specific byte in only for PDU format 2 (broadcast). -/
def decodeHeaderInt (H0 : ℕ) : HeaderFields :=
  let src := H0 &&& MASK_8_BIT
  let H1 := H0 >>> 8
  let pdu_ps := H1 &&& MASK_8_BIT
  let H2 := H1 >>> 8
  let pdu_pf := H2 &&& MASK_8_BIT
  let H3 := H2 >>> 8
  let res_dp := H3 &&& MASK_2_BIT
  let H4 := H3 >>> 2
  let priority := H4 &&& MASK_3_BIT
  let pgn0 := ((res_dp <<< 8) ||| pdu_pf) <<< 8
  let pgn := if 240 ≤ pdu_pf then pgn0 ||| pdu_ps else pgn0
  { src := src, pdu_ps := pdu_ps, pdu_pf := pdu_pf, res_dp := res_dp,
    priority := priority, pgn := pgn }

/-- Decoded frame record, the dictionary returned by
msg_to_header_info_and_payload. -/
structure Info where
  pgn : ℕ
  source : ℕ
  priority : ℕ
  payload_int : ℕ
  payload_bytes : List String
  header : String
  message : String
  timestamp : ℚ
deriving DecidableEq, Repr

/-- Embedding of msg_to_header_info_and_payload: parse the first 8
characters with the int(s, 16) embedding, decompose the header, scan the
remaining characters into byte pairs and pack them, reversed, into the
payload integer. Returns none where the Python code raises ValueError
(header rejected by int, or an empty payload byte list). The Python
masking and shifting of a possibly negative header integer reads only bits
0 to 28, which coincide with the bits of the nonnegative representative
modulo 2 to the 32, so the decomposition takes that representative; the
payload join consists of hex pairs only, hence a nonnegative value,
embedded into Nat. -/
def msg_to_header_info_and_payload (hex_message : String) (timestamp : ℚ) :
    Option Info :=
  match parseIntPy? (hex_message.take 8) with
  | none => none
  | some H =>
    let f := decodeHeaderInt ((H % (2 ^ 32 : ℤ)).toNat)
    let payload_bytes := hexPairs (hex_message.drop 8)
    match parseIntPy? (String.join payload_bytes.reverse) with
    | none => none
    | some payloadZ =>
      some { pgn := f.pgn, source := f.src, priority := f.priority,
             payload_int := payloadZ.toNat, payload_bytes := payload_bytes,
             header := hex_message.take 8, message := hex_message,
             timestamp := timestamp }

/-- Bit offset derived from the decimal byte.bit position of the message
spec file, embedding the source expression
(int(position) - 1) * 8 + max(0, int(position * 10) % 10 - 1)
with the positive decimal position held as an exact rational, where Python
int() truncation coincides with the floor. -/
def bitPosOfPosition (p : ℚ) : ℤ :=
  (⌊p⌋ - 1) * 8 + max 0 (⌊p * 10⌋ % 10 - 1)

/-- Signal specification, the SPN class attributes. -/
structure SPN where
  pgn : ℕ
  spn_name : String
  desc : String
  nbits : ℕ
  units : Option String
  scale : ℚ
  offset : ℚ
  signed : Bool
  pos : ℕ
deriving DecidableEq, Repr

/-- Embedding of the SPN constructor, deriving the bit offset from the
decimal byte.bit position. -/
def mkSPN (pgn : ℕ) (spn_name desc : String) (position : ℚ) (num_bits : ℕ)
    (scale offset : ℚ) (signed : Bool) (units : Option String) : SPN :=
  { pgn := pgn, spn_name := spn_name, desc := desc, nbits := num_bits,
    units := units, scale := scale, offset := offset, signed := signed,
    pos := (bitPosOfPosition position).toNat }

/-- Unsigned field extraction, the first two statements of
SPN.parse_from_int. -/
def rawField (s : SPN) (payload_int : ℕ) : ℕ :=
  (payload_int >>> s.pos) &&& ((1 <<< s.nbits) - 1)

/-- Integer value of a field after the sign adjustment of
SPN.parse_from_int. The Python top-bit test uses nbits - 1, meaningful for
the positive widths occurring in every configuration. -/
def SPN.rawInt (s : SPN) (payload_int : ℕ) : ℤ :=
  if s.signed ∧ rawField s payload_int &&& (1 <<< (s.nbits - 1)) ≠ 0 then
    (rawField s payload_int : ℤ) - ((1 <<< s.nbits : ℕ) : ℤ)
  else
    (rawField s payload_int : ℤ)

/-- Embedding of SPN.parse_from_int: extract, sign adjust, then apply scale
and offset. -/
def SPN.parse_from_int (s : SPN) (payload_int : ℕ) : ℚ :=
  (s.rawInt payload_int : ℚ) * s.scale + s.offset

/-- Decode result, the dictionary returned by PGN.parse_from_info_dict. The
Python dictionary comprehension keyed by spn_name is rendered as an
association list in SPN order. -/
structure Res where
  pgn : ℕ
  info : Info
  spn_vals : List (String × ℚ)
deriving DecidableEq, Repr

/-- Group decoder configuration, the PGN class attributes. The opcode table
is total with default empty list, matching the defaultdict(list) built by
Parser.init. -/
structure PGNdef where
  pgn : ℕ
  nbytes : ℕ
  source_address : ℕ
  opcode_to_spns : Option ℚ → List SPN
  opcode_spn : Option SPN

/-- Embedding of PGN.parse_from_info_dict: validate the routing key, compute
the opcode when an opcode SPN is configured, then decode every SPN of the
selected set. A Python RuntimeError is modelled as Except.error. -/
def PGNdef.parse_from_info_dict (cfg : PGNdef) (info : Info) :
    Except String Res :=
  if info.pgn ≠ cfg.pgn then
    Except.error ("Invalid PGN! Expected " ++ toString cfg.pgn ++ ", got "
      ++ toString info.pgn)
  else if info.source ≠ cfg.source_address then
    Except.error ("Invalid source! Expected " ++ toString cfg.source_address
      ++ ", got " ++ toString info.source)
  else
    let opcode := cfg.opcode_spn.map (fun s => s.parse_from_int info.payload_int)
    Except.ok { pgn := cfg.pgn, info := info,
                spn_vals := (cfg.opcode_to_spns opcode).map
                  (fun s => (s.spn_name, s.parse_from_int info.payload_int)) }

/-- Embedding of PGN.parse_message: header decoding followed by
parse_from_info_dict; a ValueError raised by the header decoder
propagates. -/
def PGNdef.parse_message (cfg : PGNdef) (message : String) (timestamp : ℚ) :
    Except String Res :=
  match msg_to_header_info_and_payload message timestamp with
  | some info => cfg.parse_from_info_dict info
  | none => Except.error "ValueError"

/-- Latitude and Longitude SPNs built in the PGN129029 constructor. The
Python float literal 1e-16 is modelled as the exact rational it denotes in
the decimal source text. -/
def pgn129029_spns : List SPN :=
  [mkSPN 129029 "Latitude" "Latitude" 9 64 (1 / 10 ^ 16) 0 true none,
   mkSPN 129029 "Longitude" "Longitude" 17 64 (1 / 10 ^ 16) 0 true none]

/-- Group decoder configuration installed by the PGN129029 constructor via
the superclass: pgn 129029, 51 bytes, source 28, a single opcode-free SPN
set and no opcode SPN. The source passes the plain dictionary with single
key None, modelled as a total table that is empty away from None. -/
def pgn129029_def : PGNdef :=
  { pgn := 129029, nbytes := 51, source_address := 28,
    opcode_to_spns := fun o => if o = none then pgn129029_spns else [],
    opcode_spn := none }

/-- Fake SPN decoding the sequence number, low nibble of payload byte 0. -/
def seqNumSpn : SPN := mkSPN 0 "Sequence ID" "" 1 4 1 0 false none

/-- Fake SPN decoding the sequence group, high nibble of payload byte 0,
built from decimal position 1.5. -/
def seqGrpSpn : SPN := mkSPN 0 "Sequence Group" "" (3 / 2) 4 1 0 false none

/-- Sequence number key of a payload integer. The 4-bit field is below 16,
so the Python integer dictionary key is rendered in Fin 16. -/
def seqNumOf (payload_int : ℕ) : Fin 16 :=
  ⟨rawField seqNumSpn payload_int, by
    have h := Nat.and_le_right (n := payload_int >>> seqNumSpn.pos)
      (m := (1 <<< seqNumSpn.nbits) - 1)
    simpa [rawField] using Nat.lt_succ_of_le h⟩

/-- Sequence group key of a payload integer, again a 4-bit field. -/
def seqGrpOf (payload_int : ℕ) : Fin 16 :=
  ⟨rawField seqGrpSpn payload_int, by
    have h := Nat.and_le_right (n := payload_int >>> seqGrpSpn.pos)
      (m := (1 <<< seqGrpSpn.nbits) - 1)
    simpa [rawField] using Nat.lt_succ_of_le h⟩

/-- Mutable state of one PGN129029 decoder instance: the dictionary from
sequence group to timestamp of the last fragment seen, and the defaultdict
from sequence group to the dictionary from sequence number to stored
payload byte strings. -/
@[ext]
structure P129State where
  timestamps : Fin 16 → Option ℚ
  fragments : Fin 16 → Fin 16 → Option (List String)

/-- State of a freshly constructed PGN129029 decoder. -/
def initP129 : P129State :=
  { timestamps := fun _ => none, fragments := fun _ _ => none }

/-- Number of keys of an inner fragment dictionary. -/
def countKeys (m : Fin 16 → Option (List String)) : ℕ :=
  (Finset.univ.filter fun i => (m i).isSome).card

/-- Staleness eviction at the top of PGN129029.parse_from_info_dict: when a
timestamp is on record for the sequence group and the gap to the incoming
timestamp exceeds 2 seconds, the fragment buffer of that group is
cleared. -/
def staleCheck (st : P129State) (g : Fin 16) (ts : ℚ) :
    Fin 16 → Fin 16 → Option (List String) :=
  match st.timestamps g with
  | some t => if 2 < |ts - t| then Function.update st.fragments g (fun _ => none)
              else st.fragments
  | none => st.fragments

/-- Concatenation loop of the assembly branch: look up sequence numbers 0
through 6 in order and concatenate their stored byte strings; none models
the KeyError path when one is missing. -/
def assemble (m : Fin 16 → Option (List String)) : Option (List String) := do
  let b0 ← m 0
  let b1 ← m 1
  let b2 ← m 2
  let b3 ← m 3
  let b4 ← m 4
  let b5 ← m 5
  let b6 ← m 6
  return b0 ++ b1 ++ b2 ++ b3 ++ b4 ++ b5 ++ b6

/-- Embedding of PGN129029.parse_from_info_dict as a state transformer:
evict a stale buffer, record the timestamp, store the fragment (payload
bytes with the sequence byte dropped), and when the buffer holds 7 keys
assemble the full message, clear the buffer, and delegate the reassembled
message to the superclass decoder. The output is none where the Python
method returns None, and carries the Except result of the superclass call
otherwise. -/
def p129Step (st : P129State) (info : Info) :
    P129State × Option (Except String Res) :=
  let g := seqGrpOf info.payload_int
  let frags0 := staleCheck st g info.timestamp
  let ts1 := Function.update st.timestamps g (some info.timestamp)
  let n := seqNumOf info.payload_int
  let newInner := Function.update (frags0 g) n (some (info.payload_bytes.drop 1))
  if countKeys newInner = 7 then
    let stC : P129State :=
      { timestamps := ts1,
        fragments := Function.update (Function.update frags0 g newInner) g
          (fun _ => none) }
    match assemble newInner with
    | some allBytes =>
      (stC, some (pgn129029_def.parse_message
        (info.header ++ String.join allBytes) 0))
    | none => (stC, none)
  else
    ({ timestamps := ts1, fragments := Function.update frags0 g newInner }, none)

/-- Embedding of PGN129029.parse_message: decode the frame then run the
stateful fragment handler; a header ValueError propagates. -/
def p129ParseMessage (st : P129State) (message : String) (timestamp : ℚ) :
    P129State × Option (Except String Res) :=
  match msg_to_header_info_and_payload message timestamp with
  | some info => p129Step st info
  | none => (st, some (Except.error "ValueError"))

/-- Feed a list of decoded frames through the PGN129029 handler, collecting
the per-frame outputs. -/
def p129Run (st : P129State) : List Info →
    P129State × List (Option (Except String Res))
  | [] => (st, [])
  | x :: xs =>
    let r := p129Step st x
    let rest := p129Run r.1 xs
    (rest.1, r.2 :: rest.2)

/-- Feed a list of raw hex messages through the PGN129029 handler. -/
def p129RunMsgs (st : P129State) : List String →
    P129State × List (Option (Except String Res))
  | [] => (st, [])
  | m :: ms =>
    let r := p129ParseMessage st m 0
    let rest := p129RunMsgs r.1 ms
    (rest.1, r.2 :: rest.2)

/-- Registry state of the top-level Parser: the stateless group decoders
loaded from the definition table, plus the stateful PGN129029 decoder
installed at key (129029, 28), which shadows any table entry for that
key exactly as the dictionary insertion at the end of Parser.init does. -/
structure ParserModel where
  table : List ((ℕ × ℕ) × PGNdef)
  st129 : P129State

/-- Association list lookup for the registry dictionary. -/
def lookupKey (t : List ((ℕ × ℕ) × PGNdef)) (k : ℕ × ℕ) : Option PGNdef :=
  match t with
  | [] => none
  | (k0, v) :: rest => if k0 = k then some v else lookupKey rest k

/-- Embedding of Parser.parse_message: decode the header, returning the
None sentinel when msg_to_header_info_and_payload raises ValueError (the
source catches it and logs a warning); look up the (pgn, source) key and
dispatch, returning the None sentinel when the key is unmapped. -/
def Parser_parse_message (p : ParserModel) (hex_str : String) (timestamp : ℚ) :
    ParserModel × Option (Except String Res) :=
  match msg_to_header_info_and_payload hex_str timestamp with
  | none => (p, none)
  | some info =>
    if (info.pgn, info.source) = ((129029 : ℕ), (28 : ℕ)) then
      let r := p129Step p.st129 info
      ({ p with st129 := r.1 }, r.2)
    else
      match lookupKey p.table (info.pgn, info.source) with
      | some cfg => (p, some (cfg.parse_from_info_dict info))
      | none => (p, none)

/-- Feed a list of raw hex frames through the top-level parser, collecting
the per-frame outputs. -/
def parserRunMsgs (p : ParserModel) : List String →
    ParserModel × List (Option (Except String Res))
  | [] => (p, [])
  | m :: ms =>
    let r := Parser_parse_message p m 0
    let rest := parserRunMsgs r.1 ms
    (rest.1, r.2 :: rest.2)

/-- Seven fragment frames of sequence group 8 with sequence numbers 0
through 6, whose 8-character headers +1F8051C carry a leading sign that
int(s, 16) accepts although + is not a hex digit; each decodes to group
number 129029 and source 28. -/
def plusMsgs : List String :=
  ["+1F8051C80AAAAAAAAAAAAAA", "+1F8051C81AAAAAAAAAAAAAA",
   "+1F8051C82AAAAAAAAAAAAAA", "+1F8051C83AAAAAAAAAAAAAA",
   "+1F8051C84AAAAAAAAAAAAAA", "+1F8051C85AAAAAAAAAAAAAA",
   "+1F8051C86AAAAAAAAAAAAAA"]

/-- Re-encoding of the three decoded header fields, reversing the
header-decomposition algorithm of the spec: priority in bits 26 to 28, the
18-bit group number in bits 8 to 25, the source address in bits 0 to 7. -/
def encode_header (priority pgn src : ℕ) : ℕ :=
  (priority <<< 26) + (pgn <<< 8) + src

/-- Bit offset formula as worded in the spec: byte index is floor(p) - 1
and bit index is max(0, round(p * 10) mod 10 - 1). Stated from the spec
words in order to compare with the source formula bitPosOfPosition. -/
def claimBitPos (p : ℚ) : ℤ :=
  (⌊p⌋ - 1) * 8 + max 0 (round (p * 10) % 10 - 1)

/-- Inclusion of the 7 sequence numbers into the 4-bit key space. -/
def embed7 (i : Fin 7) : Fin 16 := ⟨i.val, by omega⟩

/-- Fragment dictionary of one sequence group after the fragments indexed
by the list have been stored, each under its sequence-number key. -/
def fragMap (infos : Fin 7 → Info) (l : List (Fin 7)) :
    Fin 16 → Option (List String) :=
  fun n => (l.find? (fun i => embed7 i == n)).map
    (fun i => (infos i).payload_bytes.drop 1)

/-- Decoder state after the fragments indexed by the list, all of one
sequence group, have been fed in that order to a fresh decoder. -/
def stateOf (infos : Fin 7 → Info) (g : Fin 16) (l : List (Fin 7)) : P129State :=
  { timestamps := fun g1 =>
      if g1 = g then l.getLast?.map (fun k => (infos k).timestamp) else none,
    fragments := fun g1 => if g1 = g then fragMap infos l else fun _ => none }

/-- Data bytes of the 7 fragments concatenated in sequence-number order. -/
def assembleList (infos : Fin 7 → Info) : List String :=
  ((List.finRange 7).map (fun i => (infos i).payload_bytes.drop 1)).flatten

/-- Whether a handler output carries a successful decode result. -/
def isOkOut : Option (Except String Res) → Bool
  | some (Except.ok _) => true
  | _ => false

/-- Seven well-formed frames for sequence group 8 whose first payload bytes
81 through 87 carry the seven distinct sequence numbers 1 through 7, a set
of 7 buffered keys that is not the set 0 through 6. -/
def badMsgs : List String :=
  ["61F8051C87AAAAAAAAAAAAAA", "61F8051C81AAAAAAAAAAAAAA",
   "61F8051C82AAAAAAAAAAAAAA", "61F8051C83AAAAAAAAAAAAAA",
   "61F8051C84AAAAAAAAAAAAAA", "61F8051C85AAAAAAAAAAAAAA",
   "61F8051C86AAAAAAAAAAAAAA"]

/-- Seven frames of sequence group 8 carrying sequence numbers 0 through 6,
taken from the source doctest of PGN129029.parse_message. -/
def goodMsgs : List String :=
  ["61F8051C86FF015F08BC0201", "61F8051C840000000023000B",
   "61F8051C812B801401279131", "61F8051C802FCC923F73E755",
   "61F8051C85510087006BF2FF", "61F8051C83736BF4926E420B",
   "61F8051C82090600A1A1478C"]

/-- Concrete family of 7 fragment frames of sequence group 8, frame i
carrying sequence number i in its payload integer. -/
def wInfos : Fin 7 → Info := fun i =>
  { pgn := 129029, source := 28, priority := 0, payload_int := 128 + i.val,
    payload_bytes := ["80", "11", "22", "33", "44", "55", "66", "77"],
    header := "61F8051C", message := "", timestamp := 0 }

/-- Concrete decoded frame of message 00000100AA: group number 0, source 0,
a key for which no decoder is registered. -/
def wInfoB : Info :=
  { pgn := 0, source := 0, priority := 0, payload_int := 170,
    payload_bytes := ["AA"], header := "00000100", message := "00000100AA",
    timestamp := 0 }

/-- Concrete registry holding only the built-in PGN129029 decoder. -/
def wParser : ParserModel := { table := [], st129 := initP129 }

/-- Concrete signed 8-bit signal at byte position 1, bit 0. -/
def wSpn : SPN := mkSPN 0 "w" "w" 1 8 1 0 true none

/-- Concrete decoder state holding a timestamp 0 record for sequence
group 8. -/
def wStale : P129State :=
  { timestamps := Function.update (fun _ => none) 8 (some 0),
    fragments := fun _ _ => none }

/-- Concrete fragment frame of sequence group 8, sequence number 0, with
timestamp 10, more than 2 seconds after the recorded timestamp 0. -/
def wInfoStale : Info :=
  { pgn := 129029, source := 28, priority := 0, payload_int := 128,
    payload_bytes := ["80", "11", "22"], header := "61F8051C", message := "",
    timestamp := 10 }

/-- Disjoint bitwise or is addition: a value below two to the k or-ed onto
a left shift by k. -/
theorem shiftLeft_lor_eq_add {b : ℕ} (a k : ℕ) (hb : b < 2 ^ k) :
    (a <<< k) ||| b = a <<< k + b := by
  have h1 : a <<< k = 2 ^ k * a := by rw [Nat.shiftLeft_eq, mul_comm]
  rw [h1, ← Nat.mul_add_lt_is_or hb a]

/-- Arithmetic characterisation of every field extracted by the header
decomposition of the source. -/
theorem decodeHeaderInt_fields (H : ℕ) :
    decodeHeaderInt H =
      { src := H % 256, pdu_ps := H / 256 % 256, pdu_pf := H / 65536 % 256,
        res_dp := H / 16777216 % 4, priority := H / 67108864 % 8,
        pgn := 65536 * (H / 16777216 % 4) + 256 * (H / 65536 % 256) +
          if 240 ≤ H / 65536 % 256 then H / 256 % 256 else 0 } := by
  have m8 : (1 <<< 8 : ℕ) - 1 = 2 ^ 8 - 1 := by decide
  have m2 : (1 <<< 2 : ℕ) - 1 = 2 ^ 2 - 1 := by decide
  have m3 : (1 <<< 3 : ℕ) - 1 = 2 ^ 3 - 1 := by decide
  have hps : H / 2 ^ 8 % 2 ^ 8 < 2 ^ 8 := Nat.mod_lt _ (by norm_num)
  have hpf : H / 2 ^ 8 / 2 ^ 8 % 2 ^ 8 < 2 ^ 8 := Nat.mod_lt _ (by norm_num)
  have p8 : (2 : ℕ) ^ 8 = 256 := by norm_num
  have p2 : (2 : ℕ) ^ 2 = 4 := by norm_num
  have p3 : (2 : ℕ) ^ 3 = 8 := by norm_num
  simp only [decodeHeaderInt, MASK_8_BIT, MASK_2_BIT, MASK_3_BIT, m8, m2, m3,
    Nat.and_pow_two_sub_one_eq_mod, Nat.shiftRight_eq_div_pow,
    shiftLeft_lor_eq_add _ 8 hpf]
  simp only [shiftLeft_lor_eq_add _ 8 hps]
  simp only [Nat.shiftLeft_eq, HeaderFields.mk.injEq, p8, p2, p3]
  refine ⟨trivial, trivial, by omega, by omega, by omega, ?_⟩
  split_ifs with h1 h2 h2 <;> omega

/-- Bitwise test of a single bit agrees with the arithmetic threshold test
for values below the next power of two. -/
theorem and_pow_ne_zero_iff {x k : ℕ} (hx : x < 2 ^ (k + 1)) :
    x &&& 2 ^ k ≠ 0 ↔ 2 ^ k ≤ x := by
  have hpos : 0 < (2 : ℕ) ^ k := Nat.pos_pow_of_pos _ (by norm_num)
  rw [Nat.and_two_pow]
  rcases Nat.lt_or_ge x (2 ^ k) with h | h
  · have h0 : x / 2 ^ k = 0 := Nat.div_eq_of_lt h
    have ht : Nat.testBit x k = false := by
      rw [Nat.testBit_to_div_mod, h0]
      rfl
    rw [ht]
    simpa using not_le.mpr h
  · have h1 : x / 2 ^ k = 1 := by
      refine Nat.div_eq_of_lt_le (by simpa using h) ?_
      rw [show (1 + 1) * 2 ^ k = 2 ^ (k + 1) from by rw [pow_succ]; ring]
      exact hx
    have ht : Nat.testBit x k = true := by
      rw [Nat.testBit_to_div_mod, h1]
      rfl
    rw [ht]
    simpa [hpos.ne.symm] using h

/-- Arithmetic form of the unsigned field extraction. -/
theorem rawField_eq (s : SPN) (payload_int : ℕ) :
    rawField s payload_int = payload_int / 2 ^ s.pos % 2 ^ s.nbits := by
  unfold rawField
  rw [Nat.shiftRight_eq_div_pow, Nat.one_shiftLeft,
    Nat.and_pow_two_sub_one_eq_mod]

/-- Arithmetic form of the sign-adjusted field value: the extracted field,
less two to the width exactly when the signal is signed and the top bit of
the field is set. -/
theorem rawInt_eq (s : SPN) (payload_int : ℕ) :
    s.rawInt payload_int =
      ((payload_int / 2 ^ s.pos % 2 ^ s.nbits : ℕ) : ℤ) -
        (if s.signed = true ∧
            2 ^ (s.nbits - 1) ≤ payload_int / 2 ^ s.pos % 2 ^ s.nbits
         then 2 ^ s.nbits else 0) := by
  have hx : rawField s payload_int < 2 ^ s.nbits := by
    rw [rawField_eq]
    exact Nat.mod_lt _ (Nat.pos_pow_of_pos _ (by norm_num))
  have hx2 : rawField s payload_int < 2 ^ (s.nbits - 1 + 1) :=
    lt_of_lt_of_le hx (Nat.pow_le_pow_right (by norm_num) (by omega))
  have hcond : (s.signed = true ∧
      rawField s payload_int &&& 2 ^ (s.nbits - 1) ≠ 0) ↔
      (s.signed = true ∧
        2 ^ (s.nbits - 1) ≤ payload_int / 2 ^ s.pos % 2 ^ s.nbits) := by
    rw [and_pow_ne_zero_iff hx2, rawField_eq]
  unfold SPN.rawInt
  simp only [Nat.one_shiftLeft]
  rw [if_congr hcond rfl rfl]
  split_ifs with h
  · rw [rawField_eq]
    push_cast
    ring
  · rw [rawField_eq]
    push_cast
    ring

/-- C3: for every signal spec whose window fits the 64-bit payload, the
decoded value is the extracted field, sign extended by subtracting two to
the width when signed with top bit set, scaled and offset; and an all-ones
field of positive width with the signed flag yields raw value minus one
before scale and offset apply. -/
theorem c3_bitfield_decode (s : SPN) (payload_int : ℕ)
    (hw : s.pos + s.nbits ≤ 64) (hp : payload_int < 2 ^ 64) :
    s.parse_from_int payload_int =
      (((payload_int / 2 ^ s.pos % 2 ^ s.nbits : ℕ) : ℤ) -
        (if s.signed = true ∧
            2 ^ (s.nbits - 1) ≤ payload_int / 2 ^ s.pos % 2 ^ s.nbits
         then 2 ^ s.nbits else 0) : ℤ) * s.scale + s.offset ∧
    (s.signed = true → 1 ≤ s.nbits →
      rawField s payload_int = 2 ^ s.nbits - 1 →
      s.rawInt payload_int = -1) := by
  constructor
  · unfold SPN.parse_from_int
    rw [rawInt_eq]
  · intro hs hn hall
    have hlt : 2 ^ (s.nbits - 1) < 2 ^ s.nbits :=
      Nat.pow_lt_pow_right (by norm_num) (by omega)
    have hcond : rawField s payload_int &&& (1 <<< (s.nbits - 1)) ≠ 0 := by
      rw [Nat.one_shiftLeft, hall]
      have hx : 2 ^ s.nbits - 1 < 2 ^ (s.nbits - 1 + 1) := by
        have : s.nbits - 1 + 1 = s.nbits := by omega
        rw [this]
        exact Nat.sub_lt (Nat.pos_pow_of_pos _ (by norm_num)) (by norm_num)
      rw [and_pow_ne_zero_iff hx]
      omega
    unfold SPN.rawInt
    rw [if_pos ⟨hs, hcond⟩, hall, Nat.one_shiftLeft]
    have h1 : (1 : ℕ) ≤ 2 ^ s.nbits := Nat.one_le_two_pow
    push_cast [h1]
    ring

/-- C3, witness: the signed 8-bit signal at bit 0 applied to the all-ones
payload byte 255. -/
theorem c3_bitfield_decode_witness :
    wSpn.pos + wSpn.nbits ≤ 64 ∧ 255 < 2 ^ 64 ∧
    (wSpn.parse_from_int 255 =
      (((255 / 2 ^ wSpn.pos % 2 ^ wSpn.nbits : ℕ) : ℤ) -
        (if wSpn.signed = true ∧
            2 ^ (wSpn.nbits - 1) ≤ 255 / 2 ^ wSpn.pos % 2 ^ wSpn.nbits
         then 2 ^ wSpn.nbits else 0) : ℤ) * wSpn.scale + wSpn.offset ∧
    (wSpn.signed = true → 1 ≤ wSpn.nbits →
      rawField wSpn 255 = 2 ^ wSpn.nbits - 1 →
      wSpn.rawInt 255 = -1)) :=
  ⟨by decide, by decide, c3_bitfield_decode wSpn 255 (by decide) (by decide)⟩

/-- C1, counterexample: the valid 8-hex-character header 00010100 has PDU
format 1 (below 240) and PDU specific byte 1; the destination byte is
dropped from (priority, group number, source), so re-encoding the decoded
fields does not reproduce the original 29-bit identifier. -/
theorem c1_roundtrip_counterexample :
    encode_header (decodeHeaderInt 0x00010100).priority
      (decodeHeaderInt 0x00010100).pgn (decodeHeaderInt 0x00010100).src
      ≠ 0x00010100 % 2 ^ 29 := by decide

/-- C1, amended: for every header value whose PDU format byte is at least
240 or whose PDU specific byte is zero, decoding into (priority, group
number, source) and re-encoding by the reversal of the header decomposition
reproduces the original 29-bit identifier bit for bit. -/
theorem c1_roundtrip_amended (H : ℕ)
    (h : 240 ≤ (decodeHeaderInt H).pdu_pf ∨ (decodeHeaderInt H).pdu_ps = 0) :
    encode_header (decodeHeaderInt H).priority (decodeHeaderInt H).pgn
      (decodeHeaderInt H).src = H % 2 ^ 29 := by
  rw [decodeHeaderInt_fields] at h ⊢
  simp only [encode_header, Nat.shiftLeft_eq] at h ⊢
  norm_num at h ⊢
  rcases h with h | h
  · rw [if_pos h]
    omega
  · split_ifs with hc
    · rw [h]
      omega
    · omega

/-- C1, amended, witness: the round trip holds at the broadcast header
60FEF31C of the source doctest, whose PDU format byte 254 is at least
240. -/
theorem c1_roundtrip_amended_witness :
    (240 ≤ (decodeHeaderInt 0x60FEF31C).pdu_pf ∨
      (decodeHeaderInt 0x60FEF31C).pdu_ps = 0) ∧
    encode_header (decodeHeaderInt 0x60FEF31C).priority
      (decodeHeaderInt 0x60FEF31C).pgn (decodeHeaderInt 0x60FEF31C).src
      = 0x60FEF31C % 2 ^ 29 :=
  ⟨Or.inl (by decide), c1_roundtrip_amended 0x60FEF31C (Or.inl (by decide))⟩

/-- C4: on every decimal byte.bit position, 1-based byte index b with one
fractional bit digit d, the bit offset computed by the source equals
(b - 1) * 8 + max 0 (d - 1), and the spec formula stated with rounding
computes the same offset as the source formula stated with truncation. -/
theorem c4_bit_position (b d : ℕ) (hb : 1 ≤ b) (hd : d ≤ 9) :
    bitPosOfPosition ((b : ℚ) + (d : ℚ) / 10) =
      ((b : ℤ) - 1) * 8 + max 0 ((d : ℤ) - 1) ∧
    claimBitPos ((b : ℚ) + (d : ℚ) / 10) =
      bitPosOfPosition ((b : ℚ) + (d : ℚ) / 10) := by
  have hp10 : ((b : ℚ) + (d : ℚ) / 10) * 10 = ((10 * b + d : ℕ) : ℚ) := by
    push_cast
    ring
  have hfl : ⌊(b : ℚ) + (d : ℚ) / 10⌋ = (b : ℤ) := by
    rw [Int.floor_eq_iff]
    constructor
    · have h0 : 0 ≤ (d : ℚ) / 10 := by positivity
      push_cast
      linarith
    · have h1 : (d : ℚ) / 10 < 1 := by
        rw [div_lt_one (by norm_num)]
        exact_mod_cast by omega
      push_cast
      linarith
  have hfl10 : ⌊((b : ℚ) + (d : ℚ) / 10) * 10⌋ = 10 * (b : ℤ) + (d : ℤ) := by
    rw [hp10]
    exact_mod_cast Int.floor_natCast _
  have hrd10 : round (((b : ℚ) + (d : ℚ) / 10) * 10) = 10 * (b : ℤ) + (d : ℤ) := by
    rw [hp10]
    exact_mod_cast round_natCast _
  have hmod : (10 * (b : ℤ) + (d : ℤ)) % 10 = (d : ℤ) := by omega
  constructor
  · unfold bitPosOfPosition
    rw [hfl, hfl10, hmod]
  · unfold claimBitPos bitPosOfPosition
    rw [hfl, hfl10, hrd10]

/-- C4, witness: position 1.4 yields bit offset 3 under both formulas. -/
theorem c4_bit_position_witness :
    (1 : ℕ) ≤ 1 ∧ (4 : ℕ) ≤ 9 ∧
    (bitPosOfPosition (((1 : ℕ) : ℚ) + ((4 : ℕ) : ℚ) / 10) =
      (((1 : ℕ) : ℤ) - 1) * 8 + max 0 (((4 : ℕ) : ℤ) - 1) ∧
    claimBitPos (((1 : ℕ) : ℚ) + ((4 : ℕ) : ℚ) / 10) =
      bitPosOfPosition (((1 : ℕ) : ℚ) + ((4 : ℕ) : ℚ) / 10)) :=
  ⟨by decide, by decide, c4_bit_position 1 4 (by decide) (by decide)⟩

theorem embed7_inj : Function.Injective embed7 := by
  intro a b hab
  apply Fin.ext
  simpa [embed7] using congrArg Fin.val hab

theorem fragMap_nil (infos : Fin 7 → Info) : fragMap infos [] = fun _ => none := by
  funext n
  rfl

theorem fragMap_none (infos : Fin 7 → Info) {l : List (Fin 7)} {j : Fin 7}
    (hj : j ∉ l) : fragMap infos l (embed7 j) = none := by
  unfold fragMap
  have hfind : l.find? (fun x => embed7 x == embed7 j) = none := by
    rw [List.find?_eq_none]
    intro x hx
    simp only [beq_iff_eq]
    exact fun he => hj (embed7_inj he ▸ hx)
  rw [hfind]
  rfl

theorem fragMap_append (infos : Fin 7 → Info) {l : List (Fin 7)} {j : Fin 7}
    (hj : j ∉ l) :
    fragMap infos (l ++ [j]) =
      Function.update (fragMap infos l) (embed7 j)
        (some ((infos j).payload_bytes.drop 1)) := by
  funext n
  by_cases hn : embed7 j = n
  · subst hn
    rw [Function.update_same]
    unfold fragMap
    rw [List.find?_append]
    have hfind : l.find? (fun x => embed7 x == embed7 j) = none := by
      rw [List.find?_eq_none]
      intro x hx
      simp only [beq_iff_eq]
      exact fun he => hj (embed7_inj he ▸ hx)
    rw [hfind]
    simp
  · rw [Function.update_noteq (fun he => hn he.symm)]
    unfold fragMap
    rw [List.find?_append]
    have hbeq : (embed7 j == n) = false := by
      simp only [beq_eq_false_iff_ne, ne_eq]
      exact hn
    have hone : [j].find? (fun x => embed7 x == n) = none := by
      simp [List.find?, hbeq]
    rw [hone]
    simp

theorem find?_complete {l : List (Fin 7)} {i : Fin 7} (hl : l.Nodup)
    (hi : i ∈ l) : l.find? (fun x => embed7 x == embed7 i) = some i := by
  induction l with
  | nil => cases hi
  | cons a t ih =>
    by_cases hai : a = i
    · subst hai
      simp [List.find?]
    · have hne : (embed7 a == embed7 i) = false := by
        simp only [beq_eq_false_iff_ne, ne_eq]
        exact fun he => hai (embed7_inj he)
      rw [List.find?_cons_of_neg _ (by simp [hne])]
      exact ih (List.Nodup.of_cons hl)
        (by rcases List.mem_cons.mp hi with h | h
            · exact absurd h.symm hai
            · exact h)

theorem mem_of_length7 {l : List (Fin 7)} (hl : l.Nodup) (hlen : l.length = 7) :
    ∀ i : Fin 7, i ∈ l := by
  have h1 : l.toFinset.card = 7 := by
    rw [List.toFinset_card_of_nodup hl, hlen]
  have h2 : l.toFinset = Finset.univ := by
    apply Finset.eq_univ_of_card
    rw [h1]
    simp
  intro i
  rw [← List.mem_toFinset, h2]
  exact Finset.mem_univ i

theorem countKeys_empty : countKeys (fun _ => none) = 0 := by decide

theorem countKeys_update_none (m : Fin 16 → Option (List String)) (k : Fin 16)
    (v : List String) (h : m k = none) :
    countKeys (Function.update m k (some v)) = countKeys m + 1 := by
  unfold countKeys
  have hset : (Finset.univ.filter
      fun i => ((Function.update m k (some v)) i).isSome) =
      insert k (Finset.univ.filter fun i => (m i).isSome) := by
    ext i
    by_cases h2 : i = k
    · subst h2
      simp [Function.update_same]
    · simp [Function.update_noteq h2, h2]
  rw [hset, Finset.card_insert_of_not_mem (by simp [h])]

theorem countKeys_update_le (m : Fin 16 → Option (List String)) (k : Fin 16)
    (v : List String) :
    countKeys (Function.update m k (some v)) ≤ countKeys m + 1 := by
  cases hmk : m k with
  | none => rw [countKeys_update_none m k v hmk]
  | some w =>
    have heq : countKeys (Function.update m k (some v)) = countKeys m := by
      unfold countKeys
      congr 1
      ext i
      by_cases h2 : i = k
      · subst h2
        simp [Function.update_same, hmk]
      · simp [Function.update_noteq h2]
    omega

theorem countKeys_fragMap (infos : Fin 7 → Info) (l : List (Fin 7))
    (hl : l.Nodup) : countKeys (fragMap infos l) = l.length := by
  induction l using List.reverseRecOn with
  | nil =>
    rw [fragMap_nil]
    exact countKeys_empty
  | append_singleton t j ih =>
    rw [List.nodup_append] at hl
    have hj : j ∉ t := fun hm => hl.2.2 hm (by simp)
    rw [fragMap_append infos hj,
      countKeys_update_none _ _ _ (fragMap_none infos hj), ih hl.1]
    simp

theorem assemble_fragMap_complete (infos : Fin 7 → Info) (l : List (Fin 7))
    (hl : l.Nodup) (hlen : l.length = 7) :
    assemble (fragMap infos l) = some (assembleList infos) := by
  have hk : ∀ i : Fin 7, fragMap infos l (embed7 i) =
      some ((infos i).payload_bytes.drop 1) := by
    intro i
    unfold fragMap
    rw [find?_complete hl (mem_of_length7 hl hlen i)]
    rfl
  have h0 : fragMap infos l 0 = some ((infos 0).payload_bytes.drop 1) := hk 0
  have h1 : fragMap infos l 1 = some ((infos 1).payload_bytes.drop 1) := hk 1
  have h2 : fragMap infos l 2 = some ((infos 2).payload_bytes.drop 1) := hk 2
  have h3 : fragMap infos l 3 = some ((infos 3).payload_bytes.drop 1) := hk 3
  have h4 : fragMap infos l 4 = some ((infos 4).payload_bytes.drop 1) := hk 4
  have h5 : fragMap infos l 5 = some ((infos 5).payload_bytes.drop 1) := hk 5
  have h6 : fragMap infos l 6 = some ((infos 6).payload_bytes.drop 1) := hk 6
  have hfin : List.finRange 7 = [0, 1, 2, 3, 4, 5, 6] := by decide
  simp [assemble, h0, h1, h2, h3, h4, h5, h6, assembleList, hfin]

theorem stateOf_nil (infos : Fin 7 → Info) (g : Fin 16) :
    stateOf infos g [] = initP129 := by
  refine P129State.ext ?_ ?_
  · funext g1
    simp [stateOf, initP129]
  · funext g1
    simp [stateOf, initP129, fragMap_nil]

theorem staleCheck_stateOf (infos : Fin 7 → Info) (g : Fin 16)
    (l : List (Fin 7)) (j : Fin 7)
    (hts : ∀ i k : Fin 7, |(infos i).timestamp - (infos k).timestamp| ≤ 2) :
    staleCheck (stateOf infos g l) g (infos j).timestamp =
      (stateOf infos g l).fragments := by
  cases hgl : l.getLast? with
  | none => simp [staleCheck, stateOf, hgl]
  | some k => simp [staleCheck, stateOf, hgl, not_lt.mpr (hts j k)]

theorem p129Step_stateOf_small (infos : Fin 7 → Info) (g : Fin 16)
    (hg : ∀ i, seqGrpOf (infos i).payload_int = g)
    (hn : ∀ i, seqNumOf (infos i).payload_int = embed7 i)
    (hts : ∀ i k : Fin 7, |(infos i).timestamp - (infos k).timestamp| ≤ 2)
    (l : List (Fin 7)) (j : Fin 7) (hj : j ∉ l) (hl : l.Nodup)
    (hlen : l.length ≤ 5) :
    p129Step (stateOf infos g l) (infos j) =
      (stateOf infos g (l ++ [j]), none) := by
  have hnodup2 : (l ++ [j]).Nodup := by
    rw [List.nodup_append]
    exact ⟨hl, List.nodup_singleton j, by
      intro a ha hmem
      rw [List.mem_singleton] at hmem
      exact hj (hmem ▸ ha)⟩
  have hfrg : (stateOf infos g l).fragments g = fragMap infos l := by
    simp [stateOf]
  simp only [p129Step]
  rw [hg j, staleCheck_stateOf infos g l j hts, hn j, hfrg,
    ← fragMap_append infos hj, countKeys_fragMap infos _ hnodup2]
  have hne : ¬ (l ++ [j]).length = 7 := by
    simp only [List.length_append, List.length_singleton]
    omega
  rw [if_neg hne]
  refine Prod.ext ?_ rfl
  refine P129State.ext ?_ ?_
  · funext g1
    by_cases hgg : g1 = g
    · subst hgg
      simp [stateOf, Function.update_same, List.getLast?_concat]
    · simp [stateOf, Function.update_noteq hgg, hgg]
  · funext g1
    by_cases hgg : g1 = g
    · subst hgg
      simp [stateOf, Function.update_same]
    · simp [stateOf, Function.update_noteq hgg, hgg]

theorem p129Step_stateOf_complete (infos : Fin 7 → Info) (g : Fin 16)
    (hg : ∀ i, seqGrpOf (infos i).payload_int = g)
    (hn : ∀ i, seqNumOf (infos i).payload_int = embed7 i)
    (hts : ∀ i k : Fin 7, |(infos i).timestamp - (infos k).timestamp| ≤ 2)
    (l : List (Fin 7)) (j : Fin 7) (hj : j ∉ l) (hl : l.Nodup)
    (hlen : l.length = 6) :
    (p129Step (stateOf infos g l) (infos j)).2 =
      some (pgn129029_def.parse_message
        ((infos j).header ++ String.join (assembleList infos)) 0) := by
  have hnodup2 : (l ++ [j]).Nodup := by
    rw [List.nodup_append]
    exact ⟨hl, List.nodup_singleton j, by
      intro a ha hmem
      rw [List.mem_singleton] at hmem
      exact hj (hmem ▸ ha)⟩
  have hlen2 : (l ++ [j]).length = 7 := by
    simp [hlen]
  have hfrg : (stateOf infos g l).fragments g = fragMap infos l := by
    simp [stateOf]
  simp only [p129Step]
  rw [hg j, staleCheck_stateOf infos g l j hts, hn j, hfrg,
    ← fragMap_append infos hj, countKeys_fragMap infos _ hnodup2]
  rw [if_pos hlen2, assemble_fragMap_complete infos _ hnodup2 hlen2]

theorem p129Run_append (st : P129State) (xs ys : List Info) :
    p129Run st (xs ++ ys) =
      ((p129Run (p129Run st xs).1 ys).1,
        (p129Run st xs).2 ++ (p129Run (p129Run st xs).1 ys).2) := by
  induction xs generalizing st with
  | nil => simp [p129Run]
  | cons x t ih =>
    simp only [List.cons_append, p129Run, List.append_eq, ih]

theorem p129Run_steps (infos : Fin 7 → Info) (g : Fin 16)
    (hg : ∀ i, seqGrpOf (infos i).payload_int = g)
    (hn : ∀ i, seqNumOf (infos i).payload_int = embed7 i)
    (hts : ∀ i k : Fin 7, |(infos i).timestamp - (infos k).timestamp| ≤ 2) :
    ∀ (l fed : List (Fin 7)), (fed ++ l).Nodup →
      fed.length + l.length ≤ 6 →
      p129Run (stateOf infos g fed) (l.map infos) =
        (stateOf infos g (fed ++ l), List.replicate l.length none) := by
  intro l
  induction l with
  | nil =>
    intro fed h1 h2
    simp [p129Run]
  | cons j t ih =>
    intro fed h1 h2
    have h1x := h1
    rw [List.nodup_append] at h1x
    have hj : j ∉ fed := fun hmem => h1x.2.2 hmem (List.mem_cons_self j t)
    simp only [List.map_cons, p129Run]
    rw [p129Step_stateOf_small infos g hg hn hts fed j hj h1x.1
      (by simp at h2 ⊢; omega)]
    have hassoc : (fed ++ [j]) ++ t = fed ++ j :: t := by
      rw [List.append_assoc]
      rfl
    rw [ih (fed ++ [j]) (by rw [hassoc]; exact h1)
      (by simp at h2 ⊢; omega)]
    simp only [hassoc, List.length_cons, List.replicate_succ]

/-- C5: feeding 7 fragment frames of one sequence group, carrying sequence
numbers 0 through 6, in any arrival order, with all pairwise timestamp gaps
at most 2 seconds, to a fresh reassembly decoder produces no output on the
first 6 frames and exactly one output on the 7th, and that output is the
result of handing the pre-assembled full message, original header followed
by the fragment data bytes in sequence-number order, to the non-reassembling
group decoder. -/
theorem c5_reassembly_equiv (infos : Fin 7 → Info) (g : Fin 16) (h : String)
    (σ : Equiv.Perm (Fin 7))
    (hg : ∀ i, seqGrpOf (infos i).payload_int = g)
    (hn : ∀ i, seqNumOf (infos i).payload_int = embed7 i)
    (hh : ∀ i, (infos i).header = h)
    (hts : ∀ i k : Fin 7, |(infos i).timestamp - (infos k).timestamp| ≤ 2) :
    (p129Run initP129 (((List.finRange 7).map σ).map infos)).2 =
      List.replicate 6 none ++
        [some (pgn129029_def.parse_message
          (h ++ String.join (assembleList infos)) 0)] := by
  have hnodup : ((List.finRange 7).map σ).Nodup :=
    (List.nodup_finRange 7).map σ.injective
  have hlen : ((List.finRange 7).map σ).length = 7 := by simp
  obtain ⟨l6, jl, hsplit⟩ : ∃ l6 jl, (List.finRange 7).map σ = l6 ++ [jl] := by
    rcases List.eq_nil_or_concat ((List.finRange 7).map σ) with hnil | hc
    · rw [hnil] at hlen
      simp at hlen
    · obtain ⟨L, b, hc⟩ := hc
      exact ⟨L, b, by rw [hc, List.concat_eq_append]⟩
  have hlen6 : l6.length = 6 := by
    rw [hsplit] at hlen
    simp at hlen
    omega
  rw [hsplit] at hnodup
  rw [List.nodup_append] at hnodup
  have hn6 : l6.Nodup := hnodup.1
  have hjl : jl ∉ l6 := fun hm => hnodup.2.2 hm (by simp)
  rw [hsplit, List.map_append, p129Run_append, ← stateOf_nil infos g]
  rw [p129Run_steps infos g hg hn hts l6 [] (by simpa using hn6)
    (by simp [hlen6])]
  simp only [List.nil_append, List.map_cons, List.map_nil, p129Run]
  rw [hlen6]
  have hout := p129Step_stateOf_complete infos g hg hn hts l6 jl hjl hn6 hlen6
  simp only [hout, hh jl]

/-- C5, witness: seven concrete frames of sequence group 8 carrying
sequence numbers 0 through 6, fed in identity order. -/
theorem c5_reassembly_equiv_witness :
    (∀ i, seqGrpOf (wInfos i).payload_int = 8) ∧
    (∀ i, seqNumOf (wInfos i).payload_int = embed7 i) ∧
    (∀ i, (wInfos i).header = "61F8051C") ∧
    (∀ i k : Fin 7, |(wInfos i).timestamp - (wInfos k).timestamp| ≤ 2) ∧
    (p129Run initP129
        (((List.finRange 7).map (Equiv.refl (Fin 7))).map wInfos)).2 =
      List.replicate 6 none ++
        [some (pgn129029_def.parse_message
          ("61F8051C" ++ String.join (assembleList wInfos)) 0)] :=
  ⟨by decide, by decide, by decide, by decide,
    c5_reassembly_equiv wInfos 8 "61F8051C" (Equiv.refl (Fin 7))
      (by decide) (by decide) (by decide) (by decide)⟩

/-- C2: for every header value, the low byte of the decoded group number
equals the PDU specific byte when the PDU format byte is at least 240, and
is zero otherwise, whatever the PDU specific byte holds. -/
theorem c2_broadcast_low_byte (H : ℕ) :
    (decodeHeaderInt H).pgn % 256 =
      if 240 ≤ (decodeHeaderInt H).pdu_pf then (decodeHeaderInt H).pdu_ps
      else 0 := by
  rw [decodeHeaderInt_fields]
  simp only
  split_ifs with h
  · omega
  · omega

/-- C6: on every fragment received, the handler records the incoming
timestamp for the sequence group; and when the stored timestamp of the
group differs from the incoming one by more than 2 seconds, the whole
fragment buffer of the group is discarded before the new fragment is
stored, so the resulting buffer holds exactly the new fragment and the
discarded fragments can appear in no later assembly. -/
theorem c6_staleness (st : P129State) (info : Info) (g : Fin 16)
    (hg : seqGrpOf info.payload_int = g) :
    ((p129Step st info).1.timestamps g = some info.timestamp) ∧
    (∀ t : ℚ, st.timestamps g = some t → 2 < |info.timestamp - t| →
      (p129Step st info).1.fragments g =
        Function.update (fun _ => none) (seqNumOf info.payload_int)
          (some (info.payload_bytes.drop 1))) := by
  subst hg
  constructor
  · simp only [p129Step]
    split
    · split <;> simp [Function.update_same]
    · simp [Function.update_same]
  · intro t hts hstale
    have hcnt : countKeys (Function.update (fun _ => none)
        (seqNumOf info.payload_int)
        (some (info.payload_bytes.drop 1))) = 1 := by
      rw [countKeys_update_none _ _ _ rfl, countKeys_empty]
    simp only [p129Step, staleCheck, hts, if_pos hstale, Function.update_same,
      hcnt]
    rw [if_neg (by norm_num)]
    simp [Function.update_same]

/-- C6, witness: a state holding timestamp 0 for group 8 receiving a
group 8 fragment at timestamp 10. -/
theorem c6_staleness_witness :
    seqGrpOf wInfoStale.payload_int = 8 ∧
    (((p129Step wStale wInfoStale).1.timestamps 8 =
        some wInfoStale.timestamp) ∧
    (∀ t : ℚ, wStale.timestamps 8 = some t →
      2 < |wInfoStale.timestamp - t| →
      (p129Step wStale wInfoStale).1.fragments 8 =
        Function.update (fun _ => none) (seqNumOf wInfoStale.payload_int)
          (some (wInfoStale.payload_bytes.drop 1)))) :=
  ⟨by decide, c6_staleness wStale wInfoStale 8 (by decide)⟩

/-- C7, counterexample: int(s, 16) accepts decorated literals, so the
8-character header +1F8051C, which contains the non-hex character +,
decodes to group number 129029 and source 28; the built-in reassembly
decoder, installed independently of the definition table, buffers such
frames rather than dropping them, and the seventh call of the top-level
parse returns a full decode result instead of the none sentinel. -/
theorem c7_parse_counterexample :
    ('+' ∈ (("+1F8051C86AAAAAAAAAAAAAA" : String).take 8).data ∧
      hexDigitVal? '+' = none) ∧
    (parserRunMsgs wParser plusMsgs).2.map isOkOut =
      [false, false, false, false, false, false, true] :=
  ⟨⟨by decide, by decide⟩, by decide⟩

/-- C7, amended: the top-level parse returns the none sentinel, raising
nothing and leaving the registry state untouched, when the 8-character
header is rejected by int(s, 16) base-16 parsing, and when the decoded
(group number, source) key has no registered decoder. A header containing
non-hex characters that int accepts as sign, base prefix, underscore or
whitespace decoration is instead decoded normally. -/
theorem c7_parse_no_result (p : ParserModel) (s : String) (ts : ℚ) :
    (parseIntPy? (s.take 8) = none →
      Parser_parse_message p s ts = (p, none)) ∧
    (∀ info, msg_to_header_info_and_payload s ts = some info →
      lookupKey p.table (info.pgn, info.source) = none →
      (info.pgn, info.source) ≠ ((129029 : ℕ), (28 : ℕ)) →
      Parser_parse_message p s ts = (p, none)) := by
  constructor
  · intro hhex
    have hmsg : msg_to_header_info_and_payload s ts = none := by
      unfold msg_to_header_info_and_payload
      rw [hhex]
    unfold Parser_parse_message
    rw [hmsg]
  · intro info hinfo hlook hne
    unfold Parser_parse_message
    rw [hinfo]
    simp only [if_neg hne]
    rw [hlook]

/-- C7, witness: the frame 6ZFEF31CAABB, whose header int(s, 16) rejects,
is dropped with the none sentinel, and the well-formed frame 00000100AA
whose key (0, 0) is unmapped yields the none sentinel; the registry state
is unchanged in both cases. -/
theorem c7_parse_no_result_witness :
    parseIntPy? (("6ZFEF31CAABB" : String).take 8) = none ∧
    Parser_parse_message wParser "6ZFEF31CAABB" 0 = (wParser, none) ∧
    msg_to_header_info_and_payload "00000100AA" 0 = some wInfoB ∧
    lookupKey wParser.table (wInfoB.pgn, wInfoB.source) = none ∧
    (wInfoB.pgn, wInfoB.source) ≠ ((129029 : ℕ), (28 : ℕ)) ∧
    Parser_parse_message wParser "00000100AA" 0 = (wParser, none) :=
  ⟨by decide, (c7_parse_no_result wParser "6ZFEF31CAABB" 0).1 (by decide),
   by decide, rfl, by decide,
   (c7_parse_no_result wParser "00000100AA" 0).2 wInfoB (by decide)
     rfl (by decide)⟩

/-- C8: a group decoder invoked on a frame whose decoded group number or
source address differs from the configured pair signals an error instead of
producing a decode result. -/
theorem c8_key_mismatch_error (cfg : PGNdef) (info : Info)
    (h : info.pgn ≠ cfg.pgn ∨ info.source ≠ cfg.source_address) :
    ∃ e, cfg.parse_from_info_dict info = Except.error e := by
  unfold PGNdef.parse_from_info_dict
  by_cases h1 : info.pgn ≠ cfg.pgn
  · rw [if_pos h1]
    exact ⟨_, rfl⟩
  · rw [if_neg h1]
    have h2 : info.source ≠ cfg.source_address := by
      rcases h with h | h
      · exact absurd h h1
      · exact h
    rw [if_pos h2]
    exact ⟨_, rfl⟩

/-- C8, witness: the PGN129029 group decoder rejects the frame with group
number 0. -/
theorem c8_key_mismatch_error_witness :
    (wInfoB.pgn ≠ pgn129029_def.pgn ∨
      wInfoB.source ≠ pgn129029_def.source_address) ∧
    ∃ e, pgn129029_def.parse_from_info_dict wInfoB = Except.error e :=
  ⟨Or.inl (by decide),
    c8_key_mismatch_error pgn129029_def wInfoB (Or.inl (by decide))⟩

/-- C9: the sequence-number field is 4 bits wide, so the seven well-formed
frames of badMsgs with sequence numbers 1 through 7 are accepted and
buffered, sequence number 7 included; on the 7th frame the buffer holds 7
keys, the completion check passes, the concatenation loop misses sequence
number 0, the handler returns the none sentinel and clears the buffer of
the group; thereafter the seven frames of goodMsgs decode normally,
producing their result on the final frame. -/
theorem c9_missing_fragment_branch :
    (p129RunMsgs initP129 badMsgs).2 = List.replicate 7 none ∧
    (p129RunMsgs initP129 (badMsgs.take 6)).1.fragments 8 7 ≠ none ∧
    (∀ g n, (p129RunMsgs initP129 badMsgs).1.fragments g n = none) ∧
    ((p129RunMsgs (p129RunMsgs initP129 badMsgs).1 goodMsgs).2.map isOkOut) =
      [false, false, false, false, false, false, true] :=
  ⟨by decide, by decide, by decide, by decide⟩

/-- C10: the handler preserves the invariant that every fragment buffer
holds strictly fewer than 7 entries: a buffer reaching 7 entries within a
call is cleared before the call returns, on the assembly path and on the
missing-fragment path alike. -/
theorem c10_buffer_bound (st : P129State) (info : Info)
    (h : ∀ g, countKeys (st.fragments g) < 7) :
    ∀ g, countKeys ((p129Step st info).1.fragments g) < 7 := by
  intro g
  have hfr0 : ∀ g1, countKeys
      (staleCheck st (seqGrpOf info.payload_int) info.timestamp g1) < 7 := by
    intro g1
    unfold staleCheck
    cases hts : st.timestamps (seqGrpOf info.payload_int) with
    | none => exact h g1
    | some t =>
      dsimp only
      split_ifs with hgap
      · by_cases hg1 : g1 = seqGrpOf info.payload_int
        · subst hg1
          rw [Function.update_same]
          rw [countKeys_empty]
          norm_num
        · rw [Function.update_noteq hg1]
          exact h g1
      · exact h g1
  have hle : countKeys (Function.update
      (staleCheck st (seqGrpOf info.payload_int) info.timestamp
        (seqGrpOf info.payload_int))
      (seqNumOf info.payload_int) (some (info.payload_bytes.drop 1))) ≤
      countKeys (staleCheck st (seqGrpOf info.payload_int) info.timestamp
        (seqGrpOf info.payload_int)) + 1 :=
    countKeys_update_le _ _ _
  simp only [p129Step]
  split
  · rename_i h7
    split
    · dsimp only
      by_cases hgG : g = seqGrpOf info.payload_int
      · subst hgG
        rw [Function.update_same, countKeys_empty]
        norm_num
      · rw [Function.update_noteq hgG, Function.update_noteq hgG]
        exact hfr0 g
    · dsimp only
      by_cases hgG : g = seqGrpOf info.payload_int
      · subst hgG
        rw [Function.update_same, countKeys_empty]
        norm_num
      · rw [Function.update_noteq hgG, Function.update_noteq hgG]
        exact hfr0 g
  · rename_i h7
    dsimp only
    by_cases hgG : g = seqGrpOf info.payload_int
    · subst hgG
      rw [Function.update_same]
      have := hfr0 (seqGrpOf info.payload_int)
      omega
    · rw [Function.update_noteq hgG]
      exact hfr0 g

/-- C10, witness: the invariant holds for the fresh decoder state and is
preserved by a step on a concrete frame. -/
theorem c10_buffer_bound_witness :
    (∀ g, countKeys (initP129.fragments g) < 7) ∧
    (∀ g, countKeys ((p129Step initP129 wInfoStale).1.fragments g) < 7) :=
  ⟨by decide, c10_buffer_bound initP129 wInfoStale (by decide)⟩
